import Mathlib

/-!
# Verification of the `delfin` importer core

Shallow embedding of the `delfin` domain model and importer pipeline
(`packages/core/src`): ISIN and OperationId validation, the raw-record
to `Operation` mapper, the run-based grouping engine and the
`TransactionBuilder`.  Rust `String` values are modelled as `List Char`,
`DateTime<Utc>` timestamps as `Int`, and `rust_decimal::Decimal` /
`f32` amounts as exact rationals (`Rat`).
-/

deriving instance DecidableEq for Except

namespace Delfin

/-- Rust `String`, modelled as its character list. -/
abbrev Str := List Char

/-! ## `asset.rs` -/

/-- Character class `[A-Z]` of the ISO 6166 regex. -/
def isUpperAZ (c : Char) : Bool :=
  decide ('A' ≤ c) && decide (c ≤ 'Z')

/-- Character class `\d` (ASCII digits) of the ISO 6166 regex. -/
def isDigit09 (c : Char) : Bool :=
  decide ('0' ≤ c) && decide (c ≤ '9')

/-- The non-ASCII rows of the Unicode general category `Nd` (decimal
digit number), per Unicode 15.0, as closed codepoint ranges.  The Rust
`regex` crate is Unicode-aware by default, so the `\d` of the source
regex matches `\p{Nd}`, not just ASCII `0-9`. -/
def ndExtraRanges : List (Nat × Nat) :=
  [(0x660, 0x669), (0x6F0, 0x6F9), (0x7C0, 0x7C9), (0x966, 0x96F),
   (0x9E6, 0x9EF), (0xA66, 0xA6F), (0xAE6, 0xAEF), (0xB66, 0xB6F),
   (0xBE6, 0xBEF), (0xC66, 0xC6F), (0xCE6, 0xCEF), (0xD66, 0xD6F),
   (0xDE6, 0xDEF), (0xE50, 0xE59), (0xED0, 0xED9), (0xF20, 0xF29),
   (0x1040, 0x1049), (0x1090, 0x1099), (0x17E0, 0x17E9),
   (0x1810, 0x1819), (0x1946, 0x194F), (0x19D0, 0x19D9),
   (0x1A80, 0x1A89), (0x1A90, 0x1A99), (0x1B50, 0x1B59),
   (0x1BB0, 0x1BB9), (0x1C40, 0x1C49), (0x1C50, 0x1C59),
   (0xA620, 0xA629), (0xA8D0, 0xA8D9), (0xA900, 0xA909),
   (0xA9D0, 0xA9D9), (0xA9F0, 0xA9F9), (0xAA50, 0xAA59),
   (0xABF0, 0xABF9), (0xFF10, 0xFF19), (0x104A0, 0x104A9),
   (0x10D30, 0x10D39), (0x11066, 0x1106F), (0x110F0, 0x110F9),
   (0x11136, 0x1113F), (0x111D0, 0x111D9), (0x112F0, 0x112F9),
   (0x11450, 0x11459), (0x114D0, 0x114D9), (0x11650, 0x11659),
   (0x116C0, 0x116C9), (0x11730, 0x11739), (0x118E0, 0x118E9),
   (0x11950, 0x11959), (0x11C50, 0x11C59), (0x11D50, 0x11D59),
   (0x11DA0, 0x11DA9), (0x11F50, 0x11F59), (0x16A60, 0x16A69),
   (0x16AC0, 0x16AC9), (0x16B50, 0x16B59), (0x1D7CE, 0x1D7FF),
   (0x1E140, 0x1E149), (0x1E2F0, 0x1E2F9), (0x1E4F0, 0x1E4F9),
   (0x1E950, 0x1E959), (0x1FBF0, 0x1FBF9)]

/-- The character class `\d` of the source regex under the Rust `regex`
crate's Unicode-aware default: a Unicode decimal digit (`\p{Nd}`), i.e.
ASCII `0-9` or one of the non-ASCII `Nd` rows.  Only the ASCII row and
the Arabic-Indic row U+0660–U+0669 are load-bearing for the theorems
below; the remaining rows are carried for fidelity to `\p{Nd}`
(Unicode 15.0). -/
def isNdDigit (c : Char) : Bool :=
  isDigit09 c ||
    ndExtraRanges.any (fun p => decide (p.1 ≤ c.toNat) && decide (c.toNat ≤ p.2))

/-- The regex `^[A-Z]{2}[\dA-Z]{10}$` from `ISIN::from_str`
(`core/src/asset.rs`), as a decidable predicate on character lists:
exactly 12 characters, the first two in `[A-Z]`, the remaining ten in
`[\dA-Z]`, where `\d` is the Unicode-aware `\p{Nd}` of the Rust
`regex` crate. -/
def iso6166Match (l : Str) : Bool :=
  (l.length == 12) && (l.take 2).all isUpperAZ &&
    (l.drop 2).all (fun c => isNdDigit c || isUpperAZ c)

/-- `s.replace('-', "")` from `ISIN::from_str`: removing every hyphen. -/
def stripHyphens (s : Str) : Str :=
  s.filter (fun c => !(c == '-'))

/-- `ISIN(String)` — stores the original, unstripped input. -/
structure ISIN where
  val : Str
deriving DecidableEq

/-- `ISINError`.  `Regex` corresponds to a compilation failure of the
fixed pattern (dead in practice), `InvalidISO6166` to a failed match. -/
inductive ISINError where
  | Regex
  | InvalidISO6166
deriving DecidableEq

/-- `impl FromStr for ISIN` (`core/src/asset.rs`): strip hyphens, match
the fixed ISO 6166 regex (which always compiles, so the `Regex` error
branch is dead), and on success store the original string `s`. -/
def ISIN.fromStr (s : Str) : Except ISINError ISIN :=
  let normalized_value := stripHyphens s
  if iso6166Match normalized_value then
    .ok ⟨s⟩
  else
    .error .InvalidISO6166

/-- `TokenId(String)`. -/
structure TokenId where
  val : Str
deriving DecidableEq

/-- `FiatCurrency`. -/
inductive FiatCurrency where
  | USD
  | EUR
deriving DecidableEq

/-- `AssetId` tagged union. -/
inductive AssetId where
  | Security (isin : ISIN)
  | Token (tokenId : TokenId)
  | Currency (currency : FiatCurrency)
deriving DecidableEq

/-- `Asset { id, name }`. -/
structure Asset where
  id : AssetId
  name : Str
deriving DecidableEq

/-- `Asset::new`. -/
def Asset.new (id : AssetId) (name : Str) : Asset :=
  ⟨id, name⟩

/-! ## `ledger.rs` -/

/-- `Ledger(String)`; equality and hashing by name only. -/
structure Ledger where
  name : Str
deriving DecidableEq

/-- `Ledger::new`. -/
def Ledger.new (name : Str) : Ledger :=
  ⟨name⟩

/-! ## Specification-level ISIN shape

The spec describes a valid (normalized) ISIN as two uppercase ASCII
letters followed by ten uppercase-alphanumeric characters.  This is the
spec-worded counterpart of the source regex `iso6166Match`, used to
state claims C3/C4 independently of the regex encoding. -/

/-- The spec's structural ISIN pattern: the list is a 2-character
uppercase country code followed by a 10-character uppercase-alphanumeric
body. -/
def ISO6166Shape (l : Str) : Prop :=
  ∃ cc body : Str, l = cc ++ body ∧ cc.length = 2 ∧ body.length = 10 ∧
    (∀ c ∈ cc, isUpperAZ c = true) ∧
    (∀ c ∈ body, (isDigit09 c || isUpperAZ c) = true)

theorem isNdDigit_of_ascii (c : Char) (hc : c.toNat < 128) :
    isNdDigit c = isDigit09 c := by
  rw [isNdDigit]
  have hlow : ∀ q ∈ ndExtraRanges, 0x660 ≤ q.1 := by decide
  have hext : ndExtraRanges.any
      (fun p => decide (p.1 ≤ c.toNat) && decide (c.toNat ≤ p.2)) = false := by
    rw [List.any_eq_false]
    intro p hp
    simp only [Bool.and_eq_true, decide_eq_true_eq, not_and]
    intro h1 h2
    have := hlow p hp
    omega
  rw [hext, Bool.or_false]

theorem shape_imp_iso6166Match (l : Str) (h : ISO6166Shape l) :
    iso6166Match l = true := by
  obtain ⟨cc, body, rfl, hcc, hbody, hccAll, hbodyAll⟩ := h
  simp only [iso6166Match, Bool.and_eq_true, beq_iff_eq, List.all_eq_true]
  refine ⟨⟨?_, ?_⟩, ?_⟩
  · simp [List.length_append, hcc, hbody]
  · intro c hc
    rw [← hcc, List.take_left] at hc
    exact hccAll c hc
  · intro c hc
    rw [← hcc, List.drop_left] at hc
    have hbd := hbodyAll c hc
    cases hd : isDigit09 c with
    | true =>
      have : isNdDigit c = true := by
        rw [isNdDigit, hd, Bool.true_or]
      rw [this, Bool.true_or]
    | false =>
      rw [hd, Bool.false_or] at hbd
      rw [hbd, Bool.or_true]

/-- On all-ASCII strings the source regex's `\p{Nd}` collapses to
ASCII `0-9`, so the regex match agrees exactly with the spec's ASCII
shape. -/
theorem ascii_iso6166Match_iff_shape (l : Str)
    (hl : ∀ c ∈ l, c.toNat < 128) :
    iso6166Match l = true ↔ ISO6166Shape l := by
  constructor
  · intro h
    simp only [iso6166Match, Bool.and_eq_true, beq_iff_eq, List.all_eq_true] at h
    obtain ⟨⟨hlen, hcc⟩, hbody⟩ := h
    refine ⟨l.take 2, l.drop 2, (List.take_append_drop 2 l).symm, ?_, ?_, hcc, ?_⟩
    · simp [List.length_take, hlen]
    · simp [List.length_drop, hlen]
    · intro c hc
      have hmem : c ∈ l := (List.drop_sublist 2 l).mem hc
      have hbd := hbody c hc
      rw [isNdDigit_of_ascii c (hl c hmem)] at hbd
      exact hbd
  · exact shape_imp_iso6166Match l

/-- C3: every string whose hyphen-stripped form consists of exactly two
uppercase ASCII letters followed by ten uppercase-alphanumeric
characters is accepted by `ISIN::parse`, and the returned `ISIN` stores
the original input string exactly (hyphens included, unstripped). -/
theorem c3_isin_parse_accepts_valid (s : Str)
    (h : ISO6166Shape (stripHyphens s)) :
    ISIN.fromStr s = .ok ⟨s⟩ := by
  rw [ISIN.fromStr]
  simp [shape_imp_iso6166Match (stripHyphens s) h]

theorem c3_isin_parse_accepts_valid_witness :
    ISO6166Shape (stripHyphens "NA-000K0VF05-4".data) ∧
      ISIN.fromStr "NA-000K0VF05-4".data = .ok ⟨"NA-000K0VF05-4".data⟩ := by
  have hshape : ISO6166Shape (stripHyphens "NA-000K0VF05-4".data) :=
    ⟨"NA".data, "000K0VF054".data, by decide, by decide, by decide,
      by decide, by decide⟩
  exact ⟨hshape, c3_isin_parse_accepts_valid "NA-000K0VF05-4".data hshape⟩

/-- Two uppercase ASCII letters followed by the ten Arabic-Indic digits
U+0660–U+0669, hyphen-free: a string that fails the claim's ASCII
pattern yet matches the source regex, since the Rust `regex` crate's
`\d` is Unicode-aware (`\p{Nd}`) by default. -/
def arabicISIN : Str :=
  ['A', 'B', '٠', '١', '٢', '٣', '٤', '٥', '٦', '٧', '٨', '٩']

/-- C4 counterexample: `arabicISIN` does not have the claimed shape —
two uppercase letters then ten uppercase-alphanumeric (ASCII)
characters — yet `ISIN::parse` accepts it (storing it unchanged),
because the source regex's `\d` matches any Unicode decimal digit.  So
the claim's universal rejection of every non-matching string is false
of the program. -/
theorem c4_unicode_digit_accepted :
    ¬ ISO6166Shape (stripHyphens arabicISIN) ∧
      ISIN.fromStr arabicISIN = .ok ⟨arabicISIN⟩ := by
  constructor
  · rintro ⟨cc, body, heq, hcc, hbody, hccAll, hbodyAll⟩
    have hbodyEq : body = (stripHyphens arabicISIN).drop 2 := by
      rw [heq, ← hcc, List.drop_left]
    have hmem : ('٠' : Char) ∈ body := by
      rw [hbodyEq]
      decide
    have hbad := hbodyAll '٠' hmem
    revert hbad
    decide
  · decide

/-- C4 (amended): every *ASCII* string whose hyphen-stripped form does
not have the two-uppercase-letters-then-ten-uppercase-alphanumerics
shape is rejected by `ISIN::parse` with the invalid-format error,
producing no partial result.  (Outside ASCII the source regex's `\d`
is Unicode-aware, so e.g. `arabicISIN` is accepted despite failing the
ASCII pattern.) -/
theorem c4_isin_parse_rejects_invalid_ascii (s : Str)
    (hascii : ∀ c ∈ s, c.toNat < 128)
    (h : ¬ ISO6166Shape (stripHyphens s)) :
    ISIN.fromStr s = .error .InvalidISO6166 := by
  rw [ISIN.fromStr]
  have hstrip : ∀ c ∈ stripHyphens s, c.toNat < 128 := by
    intro c hc
    exact hascii c (List.mem_filter.mp hc).1
  have hm : iso6166Match (stripHyphens s) = false := by
    cases hb : iso6166Match (stripHyphens s) with
    | false => rfl
    | true => exact absurd ((ascii_iso6166Match_iff_shape _ hstrip).mp hb) h
  simp [hm]

theorem c4_isin_parse_rejects_invalid_ascii_witness :
    (∀ c ∈ "A-000K0VF05".data, c.toNat < 128) ∧
      ¬ ISO6166Shape (stripHyphens "A-000K0VF05".data) ∧
      ISIN.fromStr "A-000K0VF05".data = .error .InvalidISO6166 := by
  have hascii : ∀ c ∈ "A-000K0VF05".data, c.toNat < 128 := by decide
  have hshape : ¬ ISO6166Shape (stripHyphens "A-000K0VF05".data) := by
    rintro ⟨cc, body, heq, hcc, hbody, hccAll, hbodyAll⟩
    have hlen := congrArg List.length heq
    rw [List.length_append, hcc, hbody] at hlen
    revert hlen
    decide
  exact ⟨hascii, hshape,
    c4_isin_parse_rejects_invalid_ascii "A-000K0VF05".data hascii hshape⟩

/-! ## `operation.rs` -/

/-- `OperationId(String)` — stores the original string. -/
structure OperationId where
  val : Str
deriving DecidableEq

/-- `OperationIdError` from `core/src/operation.rs`. -/
inductive OperationIdError where
  | InvalidFormat
deriving DecidableEq

/-- ASCII hexadecimal digit. -/
def isHexDigit (c : Char) : Bool :=
  isDigit09 c || (decide ('a' ≤ c) && decide (c ≤ 'f')) ||
    (decide ('A' ≤ c) && decide (c ≤ 'F'))

/-- Modelled from the spec: the syntactic validity check behind
`OperationId::parse` (`core/src/operation.rs`, a file absent from
`src/`).  Per spec §4.2 the parse "succeeds iff `input` is a
syntactically valid UUID (any version/variant accepted)"; a UUID is
taken in its canonical hyphenated textual form, five hyphen-separated
hexadecimal fields of lengths 8-4-4-4-12. -/
def isValidUUID (s : Str) : Bool :=
  ((s.splitOn '-').map List.length == [8, 4, 4, 4, 12]) &&
    s.all (fun c => (c == '-') || isHexDigit c)

/-- Modelled from the spec: `OperationId::parse`
(`core/src/operation.rs`, absent from `src/`).  Succeeds iff the input
is a syntactically valid UUID, storing the original string; otherwise
fails with `InvalidFormat`. -/
def OperationId.parse (s : Str) : Except OperationIdError OperationId :=
  if isValidUUID s then .ok ⟨s⟩ else .error .InvalidFormat

/-- `InflowOperation`. -/
inductive InflowOperation where
  | Deposit
  | Income
  | Dividend
  | Reward
deriving DecidableEq

/-- `OutflowOperation`. -/
inductive OutflowOperation where
  | Withdrawal
  | Cost
  | Interest
  | Donation
deriving DecidableEq

/-- `OperationKind` tagged union. -/
inductive OperationKind where
  | Inflow (op : InflowOperation)
  | Outflow (op : OutflowOperation)
deriving DecidableEq

/-- `Operation`.  `value: Decimal` is modelled as `Rat`; the
`executed_at: DateTime<Utc>` timestamp as `Int`. -/
structure Operation where
  id : OperationId
  kind : OperationKind
  ledger : Ledger
  asset : Asset
  value : Rat
  executed_at : Int
deriving DecidableEq

/-! ## `transaction.rs` (core) -/

/-- `Transaction`; `ledgers: HashSet<Ledger>` is modelled as a
`Finset`. -/
structure Transaction where
  operations : List Operation
  ledgers : Finset Ledger
  started_at : Int
  finished_at : Int

/-- `TransactionBuilder` accumulator state. -/
structure TransactionBuilder where
  operations : List Operation
  ledgers : Finset Ledger
  started_at : Option Int
  finished_at : Option Int

/-- `TransactionBuilder::default()`. -/
def TransactionBuilder.default : TransactionBuilder :=
  ⟨[], ∅, none, none⟩

/-- `TransactionBuilder::add_operation` (`core/src/transaction.rs`):
insert the ledger, lower `started_at` / raise `finished_at` when
already set, initialize both when still unset, then push the
operation.  The sequential field mutations of the source are modelled
as successive `let`-rebindings. -/
def TransactionBuilder.add_operation (self : TransactionBuilder)
    (operation : Operation) : TransactionBuilder :=
  let executed_at := operation.executed_at
  let self : TransactionBuilder :=
    { self with ledgers := insert operation.ledger self.ledgers }
  let self : TransactionBuilder :=
    match self.started_at with
    | some started_at =>
        if executed_at < started_at then
          { self with started_at := some executed_at }
        else self
    | none => self
  let self : TransactionBuilder :=
    match self.finished_at with
    | some finished_at =>
        if executed_at > finished_at then
          { self with finished_at := some executed_at }
        else self
    | none => self
  let self : TransactionBuilder :=
    if self.started_at.isNone && self.finished_at.isNone then
      { self with started_at := some executed_at,
                  finished_at := some executed_at }
    else self
  { self with operations := self.operations ++ [operation] }

/-- The two `Err(String)` values of `TransactionBuilder::build`:
`"Missing operations"` and `"Missing dates"`. -/
inductive BuildError where
  | MissingOperations
  | MissingDates
deriving DecidableEq

/-- `TransactionBuilder::build` (`core/src/transaction.rs`): error on an
empty operation list, error when either date is unset, otherwise an
immutable `Transaction` snapshot of the accumulated state. -/
def TransactionBuilder.build (self : TransactionBuilder) :
    Except BuildError Transaction :=
  if self.operations.isEmpty then
    .error .MissingOperations
  else
    match self.started_at, self.finished_at with
    | some started_at, some finished_at =>
        .ok { operations := self.operations, ledgers := self.ledgers,
              started_at := started_at, finished_at := finished_at }
    | _, _ => .error .MissingDates

/-! ## Builder lemmas -/

theorem TransactionBuilder.add_operation_of_none (b : TransactionBuilder)
    (op : Operation) (h1 : b.started_at = none) (h2 : b.finished_at = none) :
    b.add_operation op =
      { operations := b.operations ++ [op],
        ledgers := insert op.ledger b.ledgers,
        started_at := some op.executed_at,
        finished_at := some op.executed_at } := by
  simp [TransactionBuilder.add_operation, h1, h2]

theorem TransactionBuilder.add_operation_of_some (b : TransactionBuilder)
    (op : Operation) (s f : Int)
    (h1 : b.started_at = some s) (h2 : b.finished_at = some f) :
    b.add_operation op =
      { operations := b.operations ++ [op],
        ledgers := insert op.ledger b.ledgers,
        started_at := some (min s op.executed_at),
        finished_at := some (max f op.executed_at) } := by
  by_cases hlt : op.executed_at < s <;> by_cases hgt : op.executed_at > f <;>
    simp [TransactionBuilder.add_operation, h1, h2, hlt, hgt] <;>
    omega

/-- Adding a list of operations, in order, to a fresh builder:
`ops.fold(TransactionBuilder::default(), |b, op| b.add_operation(op))`. -/
def applyOps (ops : List Operation) : TransactionBuilder :=
  ops.foldl TransactionBuilder.add_operation TransactionBuilder.default

theorem applyOps_append (ops : List Operation) (op : Operation) :
    applyOps (ops ++ [op]) = (applyOps ops).add_operation op := by
  simp [applyOps, List.foldl_append]

/-- Invariant of the accumulated builder state over a non-empty
insertion sequence: the operation list is the insertion sequence, the
ledger set is the set of ledgers touched, and the two dates are set to
the minimum and maximum execution timestamps. -/
theorem applyOps_spec (ops : List Operation) (h : ops ≠ []) :
    (applyOps ops).operations = ops ∧
    (applyOps ops).ledgers = (ops.map Operation.ledger).toFinset ∧
    ∃ s f : Int,
      (applyOps ops).started_at = some s ∧
      (applyOps ops).finished_at = some f ∧
      s ∈ ops.map Operation.executed_at ∧
      (∀ t ∈ ops.map Operation.executed_at, s ≤ t) ∧
      f ∈ ops.map Operation.executed_at ∧
      (∀ t ∈ ops.map Operation.executed_at, t ≤ f) := by
  induction ops using List.reverseRecOn with
  | nil => exact absurd rfl h
  | append_singleton l op ih =>
    rcases eq_or_ne l [] with rfl | hl
    · rw [List.nil_append, applyOps,
        List.foldl_cons, List.foldl_nil,
        TransactionBuilder.add_operation_of_none _ _ rfl rfl]
      refine ⟨rfl, by simp [TransactionBuilder.default],
        op.executed_at, op.executed_at, rfl, rfl, ?_⟩
      simp
    · obtain ⟨hops, hled, s, f, hs, hf, hsmem, hsle, hfmem, hfle⟩ := ih hl
      rw [applyOps_append, TransactionBuilder.add_operation_of_some _ _ s f hs hf]
      refine ⟨by rw [hops], ?_,
        min s op.executed_at, max f op.executed_at, rfl, rfl, ?_, ?_, ?_, ?_⟩
      · rw [hled]
        simp [Finset.insert_eq, Finset.union_comm]
      · rcases le_total s op.executed_at with hc | hc
        · simp only [min_eq_left hc]
          simp [hsmem]
        · simp [min_eq_right hc]
      · intro t ht
        simp only [List.map_append, List.map_cons, List.map_nil,
          List.mem_append, List.mem_singleton] at ht
        rcases ht with ht | rfl
        · exact le_trans (min_le_left _ _) (hsle t ht)
        · exact min_le_right _ _
      · rcases le_total f op.executed_at with hc | hc
        · simp [max_eq_right hc]
        · simp only [max_eq_left hc]
          simp [hfmem]
      · intro t ht
        simp only [List.map_append, List.map_cons, List.map_nil,
          List.mem_append, List.mem_singleton] at ht
        rcases ht with ht | rfl
        · exact le_trans (hfle t ht) (le_max_left _ _)
        · exact le_max_right _ _

/-- A concrete operation used to instantiate the builder theorems. -/
def sampleOp : Operation :=
  { id := ⟨"u".data⟩, kind := .Inflow .Deposit, ledger := ⟨"L".data⟩,
    asset := ⟨.Currency .USD, "USD".data⟩, value := 1, executed_at := 5 }

/-- C1: for every non-empty sequence of operations added in order to a
fresh `TransactionBuilder`, `build()` succeeds and returns a
`Transaction` whose `started_at` is the minimum `executed_at`, whose
`finished_at` is the maximum `executed_at` (so `started_at <=
finished_at`), whose `ledgers` is the exact set of distinct ledgers
among the operations, and whose `operations` is the insertion
sequence. -/
theorem c1_build_aggregates (ops : List Operation) (h : ops ≠ []) :
    ∃ tx : Transaction,
      (applyOps ops).build = .ok tx ∧
      tx.operations = ops ∧
      tx.ledgers = (ops.map Operation.ledger).toFinset ∧
      tx.started_at ∈ ops.map Operation.executed_at ∧
      (∀ t ∈ ops.map Operation.executed_at, tx.started_at ≤ t) ∧
      tx.finished_at ∈ ops.map Operation.executed_at ∧
      (∀ t ∈ ops.map Operation.executed_at, t ≤ tx.finished_at) ∧
      tx.started_at ≤ tx.finished_at := by
  obtain ⟨hops, hled, s, f, hs, hf, hsmem, hsle, hfmem, hfle⟩ :=
    applyOps_spec ops h
  refine ⟨{ operations := (applyOps ops).operations,
            ledgers := (applyOps ops).ledgers,
            started_at := s, finished_at := f }, ?_,
    hops, hled, hsmem, hsle, hfmem, hfle, hsle f hfmem⟩
  rw [TransactionBuilder.build]
  have hne : (applyOps ops).operations.isEmpty = false := by
    rw [hops]
    exact List.isEmpty_eq_false_iff_exists_mem.mpr
      (by rcases ops with _ | ⟨a, l⟩
          · exact absurd rfl h
          · exact ⟨a, List.mem_cons_self a l⟩)
  rw [hne]
  simp [hs, hf]

theorem c1_build_aggregates_witness :
    ∃ tx : Transaction,
      (applyOps [sampleOp]).build = .ok tx ∧
      tx.operations = [sampleOp] ∧
      tx.ledgers = ([sampleOp].map Operation.ledger).toFinset ∧
      tx.started_at ∈ [sampleOp].map Operation.executed_at ∧
      (∀ t ∈ [sampleOp].map Operation.executed_at, tx.started_at ≤ t) ∧
      tx.finished_at ∈ [sampleOp].map Operation.executed_at ∧
      (∀ t ∈ [sampleOp].map Operation.executed_at, t ≤ tx.finished_at) ∧
      tx.started_at ≤ tx.finished_at :=
  c1_build_aggregates [sampleOp] (by simp)

/-- C8: `TransactionBuilder::default().build()` (no operation ever
added) fails with the `MissingOperations` error, and after adding at
least one operation `build()` returns an immutable `Transaction`
snapshot of the accumulated builder state. -/
theorem c8_build_missing_operations :
    TransactionBuilder.default.build = .error .MissingOperations ∧
    ∀ ops : List Operation, ops ≠ [] →
      ∃ tx : Transaction,
        (applyOps ops).build = .ok tx ∧
        tx.operations = (applyOps ops).operations ∧
        tx.ledgers = (applyOps ops).ledgers ∧
        some tx.started_at = (applyOps ops).started_at ∧
        some tx.finished_at = (applyOps ops).finished_at := by
  refine ⟨rfl, fun ops h => ?_⟩
  obtain ⟨hops, _, s, f, hs, hf, _⟩ := applyOps_spec ops h
  refine ⟨{ operations := (applyOps ops).operations,
            ledgers := (applyOps ops).ledgers,
            started_at := s, finished_at := f },
    ?_, rfl, rfl, hs.symm, hf.symm⟩
  rw [TransactionBuilder.build]
  have hne : (applyOps ops).operations.isEmpty = false := by
    rw [hops, List.isEmpty_eq_false]
    exact h
  rw [hne]
  simp [hs, hf]

theorem c8_build_missing_operations_witness :
    TransactionBuilder.default.build = .error .MissingOperations ∧
    ∃ tx : Transaction,
      (applyOps [sampleOp]).build = .ok tx ∧
      tx.operations = (applyOps [sampleOp]).operations ∧
      tx.ledgers = (applyOps [sampleOp]).ledgers ∧
      some tx.started_at = (applyOps [sampleOp]).started_at ∧
      some tx.finished_at = (applyOps [sampleOp]).finished_at :=
  ⟨c8_build_missing_operations.1,
    c8_build_missing_operations.2 [sampleOp] (by simp)⟩

/-- The builder states reachable through the public interface: the
default state and anything obtained from a reachable state by
`add_operation`. -/
inductive Reachable : TransactionBuilder → Prop where
  | default : Reachable TransactionBuilder.default
  | add (b : TransactionBuilder) (op : Operation) :
      Reachable b → Reachable (b.add_operation op)

/-- C10: every reachable `TransactionBuilder` state has `started_at`
set exactly when `finished_at` is set, exactly when the operation list
is non-empty; the invariant holds for the default builder and is
preserved by `add_operation`, so the `"Missing dates"` branch of
`build()` is unreachable once at least one operation has been added. -/
theorem c10_dates_invariant (b : TransactionBuilder) (h : Reachable b) :
    ((b.started_at.isSome ↔ b.finished_at.isSome) ∧
     (b.started_at.isSome ↔ b.operations ≠ [])) ∧
    (b.operations ≠ [] → b.build ≠ .error .MissingDates) := by
  have key : (b.started_at.isSome ↔ b.finished_at.isSome) ∧
      (b.started_at.isSome ↔ b.operations ≠ []) := by
    induction h with
    | default => simp [TransactionBuilder.default]
    | add b op hb ih =>
      rcases hstart : b.started_at with _ | s
      · have hfin : b.finished_at = none := by
          rcases hfin : b.finished_at with _ | f
          · rfl
          · rw [hstart, hfin] at ih
            simp at ih
        rw [TransactionBuilder.add_operation_of_none b op hstart hfin]
        simp
      · have hfin : ∃ f, b.finished_at = some f := by
          rcases hfin : b.finished_at with _ | f
          · rw [hstart, hfin] at ih
            simp at ih
          · exact ⟨f, rfl⟩
        obtain ⟨f, hfin⟩ := hfin
        rw [TransactionBuilder.add_operation_of_some b op s f hstart hfin]
        simp
  refine ⟨key, fun hne => ?_⟩
  obtain ⟨s, hs⟩ := Option.isSome_iff_exists.mp (key.2.mpr hne)
  obtain ⟨f, hf⟩ := Option.isSome_iff_exists.mp (key.1.mp (key.2.mpr hne))
  rw [TransactionBuilder.build]
  have hemp : b.operations.isEmpty = false := by
    rw [List.isEmpty_eq_false]
    exact hne
  rw [hemp]
  simp [hs, hf]

theorem c10_dates_invariant_witness :
    ((TransactionBuilder.default.started_at.isSome ↔
        TransactionBuilder.default.finished_at.isSome) ∧
     (TransactionBuilder.default.started_at.isSome ↔
        TransactionBuilder.default.operations ≠ [])) ∧
    (TransactionBuilder.default.operations ≠ [] →
      TransactionBuilder.default.build ≠ .error .MissingDates) :=
  c10_dates_invariant TransactionBuilder.default Reachable.default

/-! ## `data_sources/exante.rs` (core) -/

/-- `RawRecord` as deserialized from the tab-delimited export.  The
`When` timestamp is modelled as `Int`, the signed `Sum` amount as an
exact rational. -/
structure RawRecord where
  tx_id : Str
  account_id : Str
  symbol_id : Str
  isin : Str
  operation_type : Str
  whenTs : Int
  sum : Rat
  asset : Str
  uuid : Str
deriving DecidableEq

/-- `RawRecordError`.  `Value` wraps `rust_decimal::Error`: with `f32`
amounts modelled as exact rationals the `abs().try_into()` conversion
cannot fail, so this constructor is never produced by the model. -/
inductive RawRecordError where
  | OperationId (e : OperationIdError)
  | ISIN (e : ISINError)
  | Value
deriving DecidableEq

/-- The asset-id resolution step of `TryInto<Operation> for &RawRecord`
(`core/src/data_sources/exante.rs`): a non-`"None"` ISIN field is
validated with `ISIN::parse` and wrapped as `Security`, with the
validation error lifted into `RawRecordError` (the `?` / `#[from]`
conversion); the `"None"` sentinel falls back to `Currency(USD)`. -/
def RawRecord.assetId (self : RawRecord) : Except RawRecordError AssetId :=
  if self.isin ≠ "None".data then
    match ISIN.fromStr self.isin with
    | .ok i => .ok (AssetId.Security i)
    | .error e => .error (.ISIN e)
  else
    .ok (AssetId.Currency .USD)

/-- `impl TryInto<Operation> for &RawRecord`
(`core/src/data_sources/exante.rs`): classify the kind by the sign of
`sum`, resolve the asset id, parse the `uuid` field as the operation
id, and take `value = |sum|`.  As in the source, the asset-id
validation runs before the uuid parse, and any failure aborts the whole
conversion. -/
def RawRecord.tryIntoOperation (self : RawRecord) :
    Except RawRecordError Operation :=
  let kind := if self.sum > 0 then
      OperationKind.Inflow .Deposit
    else
      OperationKind.Outflow .Withdrawal
  match self.assetId with
  | .error e => .error e
  | .ok asset_id =>
    match OperationId.parse self.uuid with
    | .error e => .error (.OperationId e)
    | .ok id =>
      .ok { id := id, kind := kind,
            ledger := Ledger.new self.account_id,
            asset := Asset.new asset_id self.asset,
            value := |self.sum|,
            executed_at := self.whenTs }

/-- C5: the mapper classifies a strictly positive `Sum` as
`Inflow(Deposit)` and any other `Sum` (zero or negative) as
`Outflow(Withdrawal)`, and sets `value` to the absolute value of `Sum`
(sign discarded). -/
theorem c5_kind_and_value (r : RawRecord) (op : Operation)
    (h : r.tryIntoOperation = .ok op) :
    (0 < r.sum → op.kind = .Inflow .Deposit) ∧
    (r.sum ≤ 0 → op.kind = .Outflow .Withdrawal) ∧
    op.value = |r.sum| := by
  rcases hA : r.assetId with e | a
  · rw [RawRecord.tryIntoOperation, hA] at h
    exact absurd h (by simp)
  · rcases hU : OperationId.parse r.uuid with e | oid
    · rw [RawRecord.tryIntoOperation, hA, hU] at h
      exact absurd h (by simp)
    · simp only [RawRecord.tryIntoOperation, hA, hU,
        Except.ok.injEq] at h
      subst h
      refine ⟨fun hpos => ?_, fun hneg => ?_, rfl⟩
      · simp only [gt_iff_lt, hpos, if_true]
      · have hnp : ¬ (r.sum > 0) := not_lt.mpr hneg
        simp only [gt_iff_lt, hnp, if_false]

/-- The rational `-49.99`, written as an explicit normalized
fraction. -/
def negFortyNineNinetyNine : Rat := ⟨-4999, 100, by decide, by decide⟩

/-- The rational `49.99`, written as an explicit normalized
fraction. -/
def fortyNineNinetyNine : Rat := ⟨4999, 100, by decide, by decide⟩

/-- A concrete raw record with a negative `Sum = -49.99`, the `"None"`
ISIN sentinel and a well-formed uuid. -/
def sampleRecordNeg : RawRecord :=
  { tx_id := "1".data, account_id := "ACC".data, symbol_id := "S".data,
    isin := "None".data, operation_type := "FUNDING/WITHDRAWAL".data,
    whenTs := 0, sum := negFortyNineNinetyNine, asset := "USD".data,
    uuid := "123e4567-e89b-12d3-a456-426614174000".data }

/-- The operation produced from `sampleRecordNeg`. -/
def sampleOpNeg : Operation :=
  { id := ⟨"123e4567-e89b-12d3-a456-426614174000".data⟩,
    kind := .Outflow .Withdrawal,
    ledger := Ledger.new "ACC".data,
    asset := Asset.new (.Currency .USD) "USD".data,
    value := fortyNineNinetyNine, executed_at := 0 }

theorem c5_kind_and_value_witness :
    sampleRecordNeg.tryIntoOperation = .ok sampleOpNeg ∧
    ((0 < sampleRecordNeg.sum → sampleOpNeg.kind = .Inflow .Deposit) ∧
     (sampleRecordNeg.sum ≤ 0 → sampleOpNeg.kind = .Outflow .Withdrawal) ∧
     sampleOpNeg.value = |sampleRecordNeg.sum|) :=
  ⟨by decide, c5_kind_and_value sampleRecordNeg sampleOpNeg (by decide)⟩

/-- C6: a record whose ISIN field is the literal `"None"` sentinel maps
to `AssetId::Currency(USD)`; any other ISIN field is validated by
`ISIN::parse` and wrapped as `Security(...)`, and a validation failure
fails the whole mapping with a `MappingError` (no `Operation` is
produced). -/
theorem c6_asset_resolution (r : RawRecord) :
    (r.isin = "None".data → ∀ op : Operation,
      r.tryIntoOperation = .ok op →
        op.asset.id = AssetId.Currency .USD) ∧
    (r.isin ≠ "None".data →
      (∀ i : ISIN, ISIN.fromStr r.isin = .ok i →
        ∀ op : Operation, r.tryIntoOperation = .ok op →
          op.asset.id = AssetId.Security i) ∧
      (∀ e : ISINError, ISIN.fromStr r.isin = .error e →
        r.tryIntoOperation = .error (.ISIN e))) := by
  constructor
  · intro hsent op h
    have hA : r.assetId = .ok (AssetId.Currency .USD) := by
      rw [RawRecord.assetId, if_neg (by simp [hsent])]
    rcases hU : OperationId.parse r.uuid with e | oid
    · rw [RawRecord.tryIntoOperation, hA, hU] at h
      exact absurd h (by simp)
    · simp only [RawRecord.tryIntoOperation, hA, hU,
        Except.ok.injEq] at h
      subst h
      simp [Asset.new]
  · intro hsent
    constructor
    · intro i hi op h
      have hA : r.assetId = .ok (AssetId.Security i) := by
        rw [RawRecord.assetId, if_pos hsent, hi]
      rcases hU : OperationId.parse r.uuid with e | oid
      · rw [RawRecord.tryIntoOperation, hA, hU] at h
        exact absurd h (by simp)
      · simp only [RawRecord.tryIntoOperation, hA, hU,
          Except.ok.injEq] at h
        subst h
        simp [Asset.new]
    · intro e he
      have hA : r.assetId = .error (.ISIN e) := by
        rw [RawRecord.assetId, if_pos hsent, he]
      rw [RawRecord.tryIntoOperation, hA]

/-- A concrete raw record whose ISIN field is neither the sentinel nor
a valid ISIN. -/
def sampleRecordBadIsin : RawRecord :=
  { tx_id := "2".data, account_id := "ACC".data, symbol_id := "S".data,
    isin := "A-000K0VF05".data, operation_type := "TRADE".data,
    whenTs := 0, sum := 3, asset := "X".data,
    uuid := "123e4567-e89b-12d3-a456-426614174000".data }

theorem c6_asset_resolution_witness :
    (sampleRecordNeg.isin = "None".data ∧
      sampleRecordNeg.tryIntoOperation = .ok sampleOpNeg ∧
      sampleOpNeg.asset.id = AssetId.Currency .USD) ∧
    (sampleRecordBadIsin.isin ≠ "None".data ∧
      ISIN.fromStr sampleRecordBadIsin.isin = .error .InvalidISO6166 ∧
      sampleRecordBadIsin.tryIntoOperation =
        .error (.ISIN .InvalidISO6166)) :=
  ⟨⟨by decide, by decide,
      (c6_asset_resolution sampleRecordNeg).1 (by decide) sampleOpNeg
        (by decide)⟩,
   ⟨by decide, by decide,
      ((c6_asset_resolution sampleRecordBadIsin).2 (by decide)).2
        .InvalidISO6166 (by decide)⟩⟩

/-- C7: the mapped operation's id comes from parsing the record's
`UUID` field as an `OperationId` — a parse that succeeds exactly on
syntactically valid UUIDs and stores the original string — and a parse
failure fails the whole mapping with that error, so no partial
`Operation` is ever produced. -/
theorem c7_uuid_parse (s : Str) (r : RawRecord) :
    ((∃ oid : OperationId, OperationId.parse s = .ok oid ∧ oid.val = s) ↔
      isValidUUID s = true) ∧
    (∀ op : Operation, r.tryIntoOperation = .ok op →
      op.id = ⟨r.uuid⟩ ∧ isValidUUID r.uuid = true) ∧
    (isValidUUID r.uuid = false →
      (∀ op : Operation, r.tryIntoOperation ≠ .ok op) ∧
      ((∃ a, r.assetId = .ok a) →
        r.tryIntoOperation = .error (.OperationId .InvalidFormat))) := by
  refine ⟨?_, ?_, ?_⟩
  · constructor
    · rintro ⟨oid, hok, hval⟩
      rw [OperationId.parse] at hok
      by_cases hv : isValidUUID s
      · exact hv
      · rw [if_neg hv] at hok
        exact absurd hok (by simp)
    · intro hv
      exact ⟨⟨s⟩, by rw [OperationId.parse, if_pos hv], rfl⟩
  · intro op h
    rcases hA : r.assetId with e | a
    · rw [RawRecord.tryIntoOperation, hA] at h
      exact absurd h (by simp)
    · rcases hU : OperationId.parse r.uuid with e | oid
      · rw [RawRecord.tryIntoOperation, hA, hU] at h
        exact absurd h (by simp)
      · simp only [RawRecord.tryIntoOperation, hA, hU,
          Except.ok.injEq] at h
        subst h
        rw [OperationId.parse] at hU
        by_cases hv : isValidUUID r.uuid
        · rw [if_pos hv, Except.ok.injEq] at hU
          exact ⟨hU.symm, hv⟩
        · rw [if_neg hv] at hU
          exact absurd hU (by simp)
  · intro hv
    have hU : OperationId.parse r.uuid = .error .InvalidFormat := by
      rw [OperationId.parse, if_neg (by simp [hv])]
    constructor
    · intro op h
      rcases hA : r.assetId with e | a
      · rw [RawRecord.tryIntoOperation, hA] at h
        exact absurd h (by simp)
      · rw [RawRecord.tryIntoOperation, hA, hU] at h
        exact absurd h (by simp)
    · rintro ⟨a, ha⟩
      rw [RawRecord.tryIntoOperation, ha, hU]

/-- A concrete raw record with an ill-formed uuid and the `"None"` ISIN
sentinel. -/
def sampleRecordBadUuid : RawRecord :=
  { tx_id := "3".data, account_id := "ACC".data, symbol_id := "S".data,
    isin := "None".data, operation_type := "TRADE".data,
    whenTs := 0, sum := 7, asset := "USD".data,
    uuid := "not-a-uuid".data }

theorem c7_uuid_parse_witness :
    (∃ oid : OperationId,
      OperationId.parse "123e4567-e89b-12d3-a456-426614174000".data =
        .ok oid ∧ oid.val = "123e4567-e89b-12d3-a456-426614174000".data) ∧
    (sampleOpNeg.id = ⟨sampleRecordNeg.uuid⟩ ∧
      isValidUUID sampleRecordNeg.uuid = true) ∧
    sampleRecordBadUuid.tryIntoOperation =
      .error (.OperationId .InvalidFormat) :=
  ⟨(c7_uuid_parse "123e4567-e89b-12d3-a456-426614174000".data
      sampleRecordNeg).1.mpr (by decide),
   (c7_uuid_parse "123e4567-e89b-12d3-a456-426614174000".data
      sampleRecordNeg).2.1 sampleOpNeg (by decide),
   ((c7_uuid_parse "123e4567-e89b-12d3-a456-426614174000".data
      sampleRecordBadUuid).2.2 (by decide)).2
     ⟨AssetId.Currency .USD, by decide⟩⟩

/-! ## Run-based grouping (`slice_group_by::linear_group_by`) -/

/-- `records.linear_group_by(|a, b| a.when == b.when)` specialised to a
key function `k`: split a list into maximal runs of adjacent elements
whose consecutive keys agree.  As in `slice_group_by`, the predicate is
applied to each pair of consecutive elements. -/
def groupRuns {α : Type} (k : α → Int) : List α → List (List α)
  | [] => []
  | [a] => [[a]]
  | a :: b :: l =>
    match groupRuns k (b :: l) with
    | [] => [[a]]
    | g :: gs => if k a = k b then (a :: g) :: gs else [a] :: g :: gs

theorem groupRuns_head {α : Type} (k : α → Int) (a : α) (l : List α) :
    ∃ r gs, groupRuns k (a :: l) = (a :: r) :: gs := by
  induction l generalizing a with
  | nil => exact ⟨[], [], rfl⟩
  | cons b t ih =>
    obtain ⟨r, gs, hr⟩ := ih b
    by_cases hk : k a = k b
    · exact ⟨b :: r, gs, by simp [groupRuns, hr, hk]⟩
    · exact ⟨[], (b :: r) :: gs, by simp [groupRuns, hr, hk]⟩

theorem groupRuns_flatten {α : Type} (k : α → Int) (l : List α) :
    (groupRuns k l).flatten = l := by
  induction l with
  | nil => rfl
  | cons a t ih =>
    cases t with
    | nil => rfl
    | cons b l2 =>
      obtain ⟨r, gs, hr⟩ := groupRuns_head k b l2
      rw [hr] at ih
      by_cases hk : k a = k b
      · simp only [groupRuns, hr, hk, if_true]
        simpa using ih
      · simp only [groupRuns, hr, hk, if_false]
        simpa using ih

theorem groupRuns_groups {α : Type} (k : α → Int) (l : List α) :
    ∀ g ∈ groupRuns k l, g ≠ [] ∧ ∀ x ∈ g, ∀ y ∈ g, k x = k y := by
  induction l with
  | nil => simp [groupRuns]
  | cons a t ih =>
    cases t with
    | nil =>
      intro g hg
      simp only [groupRuns, List.mem_singleton] at hg
      subst hg
      refine ⟨by simp, ?_⟩
      intro x hx y hy
      simp only [List.mem_singleton] at hx hy
      rw [hx, hy]
    | cons b l2 =>
      obtain ⟨r, gs, hr⟩ := groupRuns_head k b l2
      rw [hr] at ih
      have hbr : ∀ x ∈ b :: r, k x = k b := by
        intro x hx
        exact (ih (b :: r) (List.mem_cons_self _ _)).2 x hx b
          (List.mem_cons_self _ _)
      intro g hg
      by_cases hk : k a = k b
      · simp only [groupRuns, hr, hk, if_true, List.mem_cons] at hg
        rcases hg with rfl | hg
        · refine ⟨by simp, ?_⟩
          have hall : ∀ x ∈ a :: b :: r, k x = k b := by
            intro x hx
            rcases List.mem_cons.mp hx with rfl | hx2
            · exact hk
            · exact hbr x hx2
          intro x hx y hy
          rw [hall x hx, hall y hy]
        · exact ih g (List.mem_cons_of_mem _ hg)
      · simp only [groupRuns, hr, hk, if_false, List.mem_cons] at hg
        rcases hg with rfl | hg
        · refine ⟨by simp, ?_⟩
          intro x hx y hy
          simp only [List.mem_singleton] at hx hy
          rw [hx, hy]
        · exact ih g (by simpa using hg)

theorem groupRuns_chain {α : Type} (k : α → Int) (l : List α) :
    List.Chain' (fun g₁ g₂ => ∀ x ∈ g₁, ∀ y ∈ g₂, k x ≠ k y)
      (groupRuns k l) := by
  induction l with
  | nil => simp [groupRuns]
  | cons a t ih =>
    cases t with
    | nil => simp [groupRuns]
    | cons b l2 =>
      obtain ⟨r, gs, hr⟩ := groupRuns_head k b l2
      rw [hr] at ih
      have hbr : ∀ x ∈ b :: r, k x = k b := by
        intro x hx
        exact (groupRuns_groups k (b :: l2) (b :: r)
          (hr ▸ List.mem_cons_self _ _)).2 x hx b (List.mem_cons_self _ _)
      rw [List.chain'_cons'] at ih
      obtain ⟨ihhead, ihtail⟩ := ih
      by_cases hk : k a = k b
      · simp only [groupRuns, hr, hk, if_true]
        rw [List.chain'_cons']
        refine ⟨?_, ihtail⟩
        intro g2 hg2 x hx y hy
        have hxb : k x = k b := by
          rcases List.mem_cons.mp hx with rfl | hx2
          · exact hk
          · exact hbr x hx2
        have := ihhead g2 hg2 b (List.mem_cons_self _ _) y hy
        rw [hxb]
        exact this
      · simp only [groupRuns, hr, hk, if_false]
        rw [List.chain'_cons']
        refine ⟨?_, by rw [List.chain'_cons']; exact ⟨ihhead, ihtail⟩⟩
        intro g2 hg2 x hx y hy
        simp only [List.head?_cons, Option.mem_def, Option.some.injEq] at hg2
        subst hg2
        simp only [List.mem_singleton] at hx
        subst hx
        have hyb : k y = k b := hbr y hy
        rw [hyb]
        exact hk

/-- The four demo records of the spec's grouping example: execution
timestamps `[t1, t1, t2, t1]` with `t1 = 0`, `t2 = 1`. -/
def demoT1a : RawRecord :=
  { tx_id := "a".data, account_id := "ACC".data, symbol_id := "S".data,
    isin := "None".data, operation_type := "T".data, whenTs := 0,
    sum := 1, asset := "USD".data,
    uuid := "123e4567-e89b-12d3-a456-426614174000".data }

def demoT1b : RawRecord :=
  { demoT1a with
    tx_id := "b".data,
    uuid := "123e4567-e89b-12d3-a456-426614174001".data }

def demoT2 : RawRecord :=
  { demoT1a with
    tx_id := "c".data,
    whenTs := 1,
    uuid := "123e4567-e89b-12d3-a456-426614174002".data }

def demoT1c : RawRecord :=
  { demoT1a with
    tx_id := "d".data,
    uuid := "123e4567-e89b-12d3-a456-426614174003".data }

/-- C2: grouping of a record sequence is run-based (adjacency), not a
partition by key: the groups concatenate back to the input, each group
is a non-empty run of records sharing one execution timestamp, adjacent
groups carry different timestamps (maximality), and the timestamp
sequence `[t1, t1, t2, t1]` yields exactly the 3 groups `[t1,t1]`,
`[t2]`, `[t1]`, so equal but non-adjacent timestamps land in separate
groups. -/
theorem c2_grouping_run_based :
    (∀ records : List RawRecord,
      (groupRuns (fun r => r.whenTs) records).flatten = records ∧
      (∀ g ∈ groupRuns (fun r => r.whenTs) records, g ≠ [] ∧
        ∀ x ∈ g, ∀ y ∈ g, x.whenTs = y.whenTs) ∧
      List.Chain' (fun g₁ g₂ => ∀ x ∈ g₁, ∀ y ∈ g₂, x.whenTs ≠ y.whenTs)
        (groupRuns (fun r => r.whenTs) records)) ∧
    groupRuns (fun r => r.whenTs) [demoT1a, demoT1b, demoT2, demoT1c] =
      [[demoT1a, demoT1b], [demoT2], [demoT1c]] := by
  refine ⟨fun records => ⟨groupRuns_flatten _ records,
    groupRuns_groups _ records, groupRuns_chain _ records⟩, by decide⟩

theorem c2_grouping_run_based_witness :
    (groupRuns (fun r => r.whenTs)
        [demoT1a, demoT1b, demoT2, demoT1c]).flatten =
      [demoT1a, demoT1b, demoT2, demoT1c] ∧
    ([demoT1a, demoT1b] ≠ [] ∧
      ∀ x ∈ [demoT1a, demoT1b], ∀ y ∈ [demoT1a, demoT1b],
        x.whenTs = y.whenTs) ∧
    groupRuns (fun r => r.whenTs) [demoT1a, demoT1b, demoT2, demoT1c] =
      [[demoT1a, demoT1b], [demoT2], [demoT1c]] :=
  ⟨(c2_grouping_run_based.1 [demoT1a, demoT1b, demoT2, demoT1c]).1,
   (c2_grouping_run_based.1 [demoT1a, demoT1b, demoT2, demoT1c]).2.1
     [demoT1a, demoT1b] (by decide),
   c2_grouping_run_based.2⟩

/-! ## `group_records_into_transactions` (core) -/

/-- The `filter_map` closure of `group_records_into_transactions`
(`core/src/data_sources/exante.rs`): convert each record of the group
with `record.try_into().ok()?` — aborting the whole group on the first
failure — add the operations to a fresh builder in order, and return
`tx_builder.build().ok()`. -/
def buildGroup (group : List RawRecord) : Option Transaction :=
  (group.foldlM
      (fun b r => (Except.toOption r.tryIntoOperation).map b.add_operation)
      TransactionBuilder.default).bind
    (fun b => b.build.toOption)

/-- `group_records_into_transactions`
(`core/src/data_sources/exante.rs`): group the records into runs of
equal `when` timestamps with `linear_group_by`, build one transaction
per group, silently drop every group whose conversion or build fails,
and wrap the surviving transactions in `Ok`. -/
def group_records_into_transactions (records : List RawRecord) :
    Except RawRecordError (List Transaction) :=
  .ok ((groupRuns (fun r => r.whenTs) records).filterMap buildGroup)

/-- Converting a whole group record-by-record, failing on the first
record whose conversion fails. -/
def convertGroup : List RawRecord → Option (List Operation)
  | [] => some []
  | r :: t =>
    (r.tryIntoOperation.toOption).bind
      (fun op => (convertGroup t).map (fun ops => op :: ops))

theorem foldAdd_eq_convertGroup (group : List RawRecord)
    (b : TransactionBuilder) :
    group.foldlM
        (fun b r => (Except.toOption r.tryIntoOperation).map b.add_operation)
        b =
      (convertGroup group).map
        (fun ops => ops.foldl TransactionBuilder.add_operation b) := by
  induction group generalizing b with
  | nil => rfl
  | cons r t ih =>
    cases hr : r.tryIntoOperation.toOption with
    | none =>
      simp [List.foldlM_cons, convertGroup, hr]
    | some op =>
      simp [List.foldlM_cons, convertGroup, hr, ih (b.add_operation op)]
      cases convertGroup t <;> simp

theorem convertGroup_ne_nil (group : List RawRecord)
    (ops : List Operation) (h : convertGroup group = some ops)
    (hne : group ≠ []) : ops ≠ [] := by
  cases group with
  | nil => exact absurd rfl hne
  | cons r t =>
    cases hr : r.tryIntoOperation.toOption with
    | none => simp [convertGroup, hr] at h
    | some op =>
      cases ht : convertGroup t with
      | none => simp [convertGroup, hr, ht] at h
      | some rest =>
        simp [convertGroup, hr, ht] at h
        subst h
        simp

theorem buildGroup_eq (group : List RawRecord) :
    buildGroup group =
      (convertGroup group).bind (fun ops => (applyOps ops).build.toOption) := by
  rw [buildGroup, foldAdd_eq_convertGroup]
  cases convertGroup group <;> simp [applyOps]

/-- C9 counterexample data: a record with an invalid uuid followed by a
well-formed record with the same timestamp, then a well-formed record
with a later timestamp. -/
def goodRec1 : RawRecord :=
  { tx_id := "g1".data, account_id := "ACC".data, symbol_id := "S".data,
    isin := "None".data, operation_type := "T".data, whenTs := 0,
    sum := 3, asset := "USD".data,
    uuid := "123e4567-e89b-12d3-a456-426614174010".data }

def goodRec2 : RawRecord :=
  { goodRec1 with
    tx_id := "g2".data,
    whenTs := 5,
    sum := 2,
    uuid := "123e4567-e89b-12d3-a456-426614174020".data }

/-- The operation `goodRec1` converts to. -/
def goodOp1 : Operation :=
  { id := ⟨"123e4567-e89b-12d3-a456-426614174010".data⟩,
    kind := .Inflow .Deposit, ledger := Ledger.new "ACC".data,
    asset := Asset.new (.Currency .USD) "USD".data,
    value := 3, executed_at := 0 }

/-- The operation `goodRec2` converts to. -/
def goodOp2 : Operation :=
  { id := ⟨"123e4567-e89b-12d3-a456-426614174020".data⟩,
    kind := .Inflow .Deposit, ledger := Ledger.new "ACC".data,
    asset := Asset.new (.Currency .USD) "USD".data,
    value := 2, executed_at := 5 }

/-- C9 counterexample: under the default pipeline a record that fails
to convert drops its *whole group*.  In the input
`[sampleRecordBadUuid, goodRec1, goodRec2]` the first two records share
a timestamp, `sampleRecordBadUuid` fails to convert, `goodRec1` is
well-formed and converts to `goodOp1` — yet the pipeline output
contains only the transaction built from `goodRec2`, so the well-formed
`goodRec1` does not contribute to any output transaction, refuting the
claim that every other well-formed record in the input still
contributes. -/
theorem c9_failure_drops_well_formed_groupmate :
    Except.map (List.map Transaction.operations)
        (group_records_into_transactions
          [sampleRecordBadUuid, goodRec1, goodRec2]) = .ok [[goodOp2]] ∧
    sampleRecordBadUuid.tryIntoOperation =
      .error (.OperationId .InvalidFormat) ∧
    goodRec1.tryIntoOperation = .ok goodOp1 ∧
    goodOp1 ∉ [goodOp2] := by
  decide

/-- C9 amended: a mapping failure on one raw record is scoped to that
record's *group*: the pipeline never crashes (it always returns `Ok`),
and every non-empty group in which *all* records convert successfully
still contributes a transaction holding exactly its operations; the
group containing the failing record is dropped silently. -/
theorem c9_amended_failure_scoped_to_group (records : List RawRecord) :
    ∃ txs : List Transaction,
      group_records_into_transactions records = .ok txs ∧
      ∀ g ∈ groupRuns (fun r => r.whenTs) records, g ≠ [] →
        ∀ ops : List Operation, convertGroup g = some ops →
          ∃ tx ∈ txs, tx.operations = ops := by
  refine ⟨_, rfl, ?_⟩
  intro g hg hne ops hops
  have hopsne : ops ≠ [] := convertGroup_ne_nil g ops hops hne
  obtain ⟨hopsEq, hled, s, f, hs, hf, _⟩ := applyOps_spec ops hopsne
  have hbuild : (applyOps ops).build =
      .ok { operations := (applyOps ops).operations,
            ledgers := (applyOps ops).ledgers,
            started_at := s, finished_at := f } := by
    rw [TransactionBuilder.build]
    have hemp : (applyOps ops).operations.isEmpty = false := by
      rw [hopsEq, List.isEmpty_eq_false]
      exact hopsne
    rw [hemp]
    simp [hs, hf]
  have hbg : buildGroup g =
      some { operations := (applyOps ops).operations,
             ledgers := (applyOps ops).ledgers,
             started_at := s, finished_at := f } := by
    rw [buildGroup_eq, hops]
    simp [hbuild, Except.toOption]
  exact ⟨_, List.mem_filterMap.mpr ⟨g, hg, hbg⟩, hopsEq⟩

theorem c9_amended_failure_scoped_to_group_witness :
    ∃ txs : List Transaction,
      group_records_into_transactions
          [sampleRecordBadUuid, goodRec1, goodRec2] = .ok txs ∧
      ∃ tx ∈ txs, tx.operations = [goodOp2] := by
  obtain ⟨txs, h1, h2⟩ :=
    c9_amended_failure_scoped_to_group [sampleRecordBadUuid, goodRec1, goodRec2]
  exact ⟨txs, h1,
    h2 [goodRec2] (by decide) (by decide) [goodOp2] (by decide)⟩

end Delfin

